import Mathlib

/-!
Verification of the `enum_discrim` derive-macro crate.

The development shallowly embeds the crate's core (the files
`proc/src/lib.rs`, `proc/src/into.rs`, `proc/src/try_from.rs`,
`proc/src/discriminants.rs` and the runtime error type of `src/lib.rs`):

* `PrimitiveRepresentation` and its attribute resolver (`FromStr`,
  `FromMeta::from_list`, `FromAttributes::from_attributes`);
* the discriminant scan `scan_variants` together with the `Increment`
  trait (`wrapping_add(1)` on each of the twelve integer types);
* the three derive entry points and the conversions they emit.

Machine integers of width `b` are embedded as `Int` restricted to the
two's-complement range of `b` bits; `usize`/`isize` take the pointer
width as an explicit parameter.
-/

namespace EnumDiscrim

/-- Bit width and signedness of an integer type backing an enum.
The twelve Rust types map onto this; `usize`/`isize` use the platform
pointer width, which is passed in as a parameter. -/
structure WidthKind where
  bits : Nat
  signed : Bool
deriving DecidableEq

/-- Largest value representable by the width (e.g. `255` for `u8`,
`127` for `i8`). -/
def WidthKind.maxValue (w : WidthKind) : Int :=
  if w.signed then 2 ^ (w.bits - 1) - 1 else 2 ^ w.bits - 1

/-- Smallest value representable by the width (`0` unsigned,
`-2^(bits-1)` signed). -/
def WidthKind.minValue (w : WidthKind) : Int :=
  if w.signed then -(2 ^ (w.bits - 1)) else 0

/-- `wrapping_add(1)` of the corresponding Rust integer type, i.e. the
`Increment` trait of `proc/src/lib.rs`, expressed on the in-range
integers of the width: add one and reduce into
`[minValue, minValue + 2^bits)` by two's-complement wraparound. -/
def WidthKind.increment (w : WidthKind) (v : Int) : Int :=
  (v + 1 - w.minValue) % (2 : Int) ^ w.bits + w.minValue

/-- `PrimitiveRepresentation` of `proc/src/lib.rs`: the twelve primitive
representations an enum may declare. -/
inductive PrimitiveRepresentation
  | u8 | u16 | u32 | u64 | u128 | usize
  | i8 | i16 | i32 | i64 | i128 | isize
deriving DecidableEq

/-- Width and signedness of each primitive representation, given the
platform pointer width `ptrBits` (used by `usize`/`isize`). -/
def PrimitiveRepresentation.widthKind (ptrBits : Nat) :
    PrimitiveRepresentation → WidthKind
  | .u8 => ⟨8, false⟩
  | .u16 => ⟨16, false⟩
  | .u32 => ⟨32, false⟩
  | .u64 => ⟨64, false⟩
  | .u128 => ⟨128, false⟩
  | .usize => ⟨ptrBits, false⟩
  | .i8 => ⟨8, true⟩
  | .i16 => ⟨16, true⟩
  | .i32 => ⟨32, true⟩
  | .i64 => ⟨64, true⟩
  | .i128 => ⟨128, true⟩
  | .isize => ⟨ptrBits, true⟩

/-- `syn::Lit` restricted to what `scan_variants` distinguishes: an
integer literal (`Lit::Int`, whose base-10 digits denote a natural
number) or a literal of any other kind, tagged with its kind name. -/
inductive Lit
  | int (n : Nat)
  | other (kind : String)
deriving DecidableEq

/-- `syn::Expr` restricted to what `scan_variants` distinguishes: a
literal expression (`Expr::Lit`) or any non-literal expression. -/
inductive Expr
  | lit (l : Lit)
  | nonLit
deriving DecidableEq

/-- The data-carrying kind of a variant (`syn::Fields`): unit, tuple
(`unnamed`), or struct (`named`). -/
inductive Fields
  | unit
  | unnamed (arity : Nat)
  | named (fieldNames : List String)
deriving DecidableEq

/-- `syn::Variant` restricted to what the crate reads: the name, the
fields kind, and the optional explicit discriminant expression. -/
structure Variant where
  name : String
  fields : Fields
  discriminant : Option Expr
deriving DecidableEq

/-- The validation errors `scan_variants` pushes into its darling
accumulator, tagged with the name of the offending variant (standing
for the source span the code attaches):
* `outOfRange`: `LitInt::base10_parse::<D>` failed because the literal
  does not fit the width;
* `unexpectedLitType`: `darling::Error::unexpected_lit_type` for a
  non-integer literal;
* `notIntegerLiteral`: the custom "Discriminant must be an integer
  literal" error for a non-literal expression. -/
inductive ScanError
  | outOfRange (variant : String) (lit : Nat)
  | unexpectedLitType (variant : String) (kind : String)
  | notIntegerLiteral (variant : String)
deriving DecidableEq

/-- `LitInt::base10_parse::<D>`: a base-10 integer literal (a digit
string, hence non-negative) parses into width `w` iff its value fits;
otherwise the parse error is recorded against the variant. -/
def base10Parse (w : WidthKind) (vname : String) (n : Nat) :
    Except ScanError Int :=
  if (n : Int) ≤ w.maxValue then .ok (n : Int) else .error (.outOfRange vname n)

/-- One iteration of the closure passed to `Iterator::scan` inside
`scan_variants`: given the running value `d` and a variant, return the
next running value and either the resolved pair or the recorded error.
Mirrors the source exactly: the running value is updated only in the
successfully-parsed integer-literal branch (`*d = value.increment()`);
in particular a variant with no explicit discriminant resolves to `d`
and leaves `d` unchanged. -/
def scanStep (w : WidthKind) (d : Int) (v : Variant) :
    Int × Except ScanError (Variant × Int) :=
  match v.discriminant with
  | none => (d, .ok (v, d))
  | some (.lit (.int n)) =>
    match base10Parse w v.name n with
    | .ok value => (w.increment value, .ok (v, value))
    | .error e => (d, .error e)
  | some (.lit (.other k)) => (d, .error (.unexpectedLitType v.name k))
  | some .nonLit => (d, .error (.notIntegerLiteral v.name))

/-- The `scan` + `filter_map` pipeline of `scan_variants`: traverse the
variants threading the running value (initially `D::default()`), and
separate the per-variant outcomes into the kept resolved pairs and the
errors pushed into the accumulator, both in source order. -/
def scanGo (w : WidthKind) (d : Int) :
    List Variant → List (Variant × Int) × List ScanError
  | [] => ([], [])
  | v :: vs =>
    let step := scanStep w d v
    let rest := scanGo w step.1 vs
    match step.2 with
    | .ok p => (p :: rest.1, rest.2)
    | .error e => (rest.1, e :: rest.2)

/-- `scan_variants` of `proc/src/lib.rs`: run the scan from the default
value `0`, then `accumulator.finish()` — fail with the collected error
set iff it is non-empty, otherwise return the resolved pairs. -/
def scanVariants (w : WidthKind) (vs : List Variant) :
    Except (List ScanError) (List (Variant × Int)) :=
  let res := scanGo w 0 vs
  if res.2.isEmpty then .ok res.1 else .error res.2

/-- `Result::ok` of Rust: keep the success value, discard the error.
Used by `FromMeta::from_list`'s `find_map(|item| ... .ok())`. -/
def resultOk : Except ε α → Option α
  | .ok a => some a
  | .error _ => none

/-- `FromStr for PrimitiveRepresentation`: the twelve recognized
spellings; everything else is an "Invalid primitive representation"
error. -/
def PrimitiveRepresentation.fromStr (s : String) :
    Except String PrimitiveRepresentation :=
  match s with
  | "u8" => .ok .u8
  | "u16" => .ok .u16
  | "u32" => .ok .u32
  | "u64" => .ok .u64
  | "u128" => .ok .u128
  | "usize" => .ok .usize
  | "i8" => .ok .i8
  | "i16" => .ok .i16
  | "i32" => .ok .i32
  | "i64" => .ok .i64
  | "i128" => .ok .i128
  | "isize" => .ok .isize
  | _ => .error "Invalid primitive representation"

/-- `syn::NestedMeta` restricted to what `from_nested_meta`
distinguishes: a path meta item (rendered to its spelling by
`darling::util::path_to_string`) or any other nested meta item. -/
inductive NestedMeta
  | path (s : String)
  | notPath
deriving DecidableEq

/-- `FromMeta::from_nested_meta for PrimitiveRepresentation`: parse a
path item's spelling; any non-path item is an "Invalid primitive
representation" error (the `from_str` error is forwarded with the same
message). -/
def fromNestedMeta : NestedMeta → Except String PrimitiveRepresentation
  | .path s => PrimitiveRepresentation.fromStr s
  | .notPath => .error "Invalid primitive representation"

/-- A `syn::Attribute` restricted to what the crate reads: the path
(e.g. `repr`) and the nested meta items of its parenthesized list
(the output of `darling::util::parse_attribute_to_meta_list`). -/
structure Attribute where
  path : String
  nested : List NestedMeta
deriving DecidableEq

/-- `FromMeta::from_list for PrimitiveRepresentation`: take the first
item that parses (`find_map(|item| from_nested_meta(item).ok())`),
discarding the parse errors of the others; if none parses, fail with
the missing-declaration message. -/
def fromList (items : List NestedMeta) :
    Except String PrimitiveRepresentation :=
  match items.findSome? (fun i => resultOk (fromNestedMeta i)) with
  | some r => .ok r
  | none => .error "#[repr(inttype)] must be specified"

/-- `FromAttributes::from_attributes for PrimitiveRepresentation`: find
the first attribute whose path is `repr` (missing-declaration error if
there is none) and run `from_list` on its meta items. -/
def fromAttributes (attrs : List Attribute) :
    Except String PrimitiveRepresentation :=
  match attrs.find? (fun a => a.path == "repr") with
  | some a => fromList a.nested
  | none => .error "#[repr(inttype)] must be specified"

/-- `TryFromError` of `src/lib.rs`: the runtime conversion error,
carrying the enum's identifier. -/
structure TryFromError where
  ident : String
deriving DecidableEq

/-- The `Display` implementation of `TryFromError`. -/
def TryFromError.message (e : TryFromError) : String :=
  "Tried to convert an invalid value into a " ++ e.ident

/-- The conversion emitted by the `TryFrom` derive
(`proc/src/try_from.rs`): match the input against the resolved values
in source order (`#value => Ok(Self::#name)`), first arm wins; the
wildcard arm returns `TryFromError::new(ident)`. -/
def tryFromFun (ident : String) (arms : List (Variant × Int)) (n : Int) :
    Except TryFromError Variant :=
  match arms.find? (fun p => p.2 == n) with
  | some p => .ok p.1
  | none => .error ⟨ident⟩

/-- Modelled from the spec: the value of the cast `value as repr`
emitted by `proc/src/into.rs` — the compiler's own discriminant rule,
"explicit value if given, else previous value + 1 with wraparound,
starting at 0". `into.rs` emits the cast without computing these
values itself; they are meaningful for enums whose explicit
discriminants are in-range integer literals. -/
def rustcGo (w : WidthKind) (d : Int) : List Variant → List (Variant × Int)
  | [] => []
  | v :: vs =>
    match v.discriminant with
    | some (.lit (.int n)) => (v, (n : Int)) :: rustcGo w (w.increment n) vs
    | _ => (v, d) :: rustcGo w (w.increment d) vs

/-- Modelled from the spec: the compiler-assigned discriminants of a
variant list, starting from `0` (see `rustcGo`). -/
def rustcDiscriminants (w : WidthKind) (vs : List Variant) :
    List (Variant × Int) :=
  rustcGo w 0 vs

/-- Errors a derive entry point can return: a darling message (shape
check or width resolution) or the accumulated scan errors. -/
inductive GenError
  | darlingMsg (msg : String)
  | scanErrors (errors : List ScanError)
deriving DecidableEq

/-- Modelled from the spec: the shape check `darling(supports(enum_unit))`
declared on `IntoInput` (`proc/src/into.rs`) and `TryFromInput`
(`proc/src/try_from.rs`) — parsing the derive input fails with the
not-all-variants-unit error when some variant carries data. -/
def allUnit (vs : List Variant) : Bool :=
  vs.all (fun v => v.fields == .unit)

/-- `into::derive` (`proc/src/into.rs`): parse the input (shape check
`enum_unit`), resolve the primitive representation from the forwarded
attributes, and emit the `From` impl whose body is the cast
`value as repr`. It does not run `scan_variants`; the returned value
is the resolved representation the cast targets. -/
def intoDerive (attrs : List Attribute) (vs : List Variant) :
    Except GenError PrimitiveRepresentation :=
  if allUnit vs then
    match fromAttributes attrs with
    | .ok r => .ok r
    | .error m => .error (.darlingMsg m)
  else
    .error (.darlingMsg "Not all variants are unit")

/-- `try_from::derive` (`proc/src/try_from.rs`): parse the input (shape
check `enum_unit`), resolve the primitive representation, run
`scan_variants` at that width, and emit the match arms pairing each
variant with its resolved value. -/
def tryFromDerive (attrs : List Attribute) (ptrBits : Nat)
    (vs : List Variant) :
    Except GenError (PrimitiveRepresentation × List (Variant × Int)) :=
  if allUnit vs then
    match fromAttributes attrs with
    | .ok r =>
      match scanVariants (r.widthKind ptrBits) vs with
      | .ok arms => .ok (r, arms)
      | .error es => .error (.scanErrors es)
    | .error m => .error (.darlingMsg m)
  else
    .error (.darlingMsg "Not all variants are unit")

/-- `discriminants::derive` (`proc/src/discriminants.rs`): parse the
input (shape `enum_any`, so every fields kind is accepted), resolve
the primitive representation, run `scan_variants`, and emit one
`const <name>_D` per variant holding its resolved value. -/
def discriminantsDerive (attrs : List Attribute) (ptrBits : Nat)
    (vs : List Variant) :
    Except GenError (PrimitiveRepresentation × List (String × Int)) :=
  match fromAttributes attrs with
  | .ok r =>
    match scanVariants (r.widthKind ptrBits) vs with
    | .ok resolved =>
      .ok (r, resolved.map (fun p => (p.1.name ++ "_D", p.2)))
    | .error es => .error (.scanErrors es)
  | .error m => .error (.darlingMsg m)

/-- The validation verdict `scan_variants` reaches on a single variant,
independent of the running value: `none` when the variant passes,
otherwise the error recorded for it. -/
def variantError (w : WidthKind) (v : Variant) : Option ScanError :=
  match v.discriminant with
  | none => none
  | some (.lit (.int n)) =>
    if (n : Int) ≤ w.maxValue then none else some (.outOfRange v.name n)
  | some (.lit (.other k)) => some (.unexpectedLitType v.name k)
  | some .nonLit => some (.notIntegerLiteral v.name)

/-- A variant's explicit discriminant, if any, is an integer literal in
range for the width. -/
def litOk (w : WidthKind) (v : Variant) : Bool :=
  match v.discriminant with
  | none => true
  | some (.lit (.int n)) => decide ((n : Int) ≤ w.maxValue)
  | some (.lit (.other _)) => false
  | some .nonLit => false

/-- Every explicit discriminant in the list is an in-range integer
literal. -/
def variantsLitOk (w : WidthKind) (vs : List Variant) : Bool :=
  vs.all (litOk w)

/-- No two adjacent variants both lack an explicit discriminant. -/
def noConsecutiveImplicitB : List Variant → Bool
  | [] => true
  | [_] => true
  | a :: b :: t =>
    !(a.discriminant.isNone && b.discriminant.isNone) &&
      noConsecutiveImplicitB (b :: t)

/-- The value the width's maximum wraps to under `increment`: `0` for
unsigned widths, the minimum negative value for signed widths. -/
def WidthKind.wrapOfMax (w : WidthKind) : Int :=
  if w.signed then w.minValue else 0

/-- Variant `A` of the crate's running example `enum E { A, B = 2, C }`. -/
def eA : Variant := ⟨"A", .unit, none⟩

/-- Variant `B = 2` of the crate's running example. -/
def eB : Variant := ⟨"B", .unit, some (.lit (.int 2))⟩

/-- Variant `C` of the crate's running example. -/
def eC : Variant := ⟨"C", .unit, none⟩

/-- The crate's running example `enum E { A, B = 2, C }`. -/
def exampleE : List Variant := [eA, eB, eC]

/-- The attribute list `#[repr(u8)]`. -/
def reprU8 : List Attribute := [⟨"repr", [.path "u8"]⟩]

/-- The data-carrying example of the crate's documentation:
`enum E<B, C> { A, B(B) = 2, C { c: C } }` with `#[repr(u8)]`. -/
def dataEnum : List Variant :=
  [⟨"A", .unit, none⟩,
   ⟨"B", .unnamed 1, some (.lit (.int 2))⟩,
   ⟨"C", .named ["c"], none⟩]

deriving instance DecidableEq for Except

set_option maxRecDepth 40000

/-- The error list collected by the scan depends only on the variants,
not on the running value: it is exactly the per-variant verdicts, in
source order. -/
lemma scanGo_errors (w : WidthKind) (vs : List Variant) :
    ∀ d, (scanGo w d vs).2 = vs.filterMap (variantError w) := by
  induction vs with
  | nil => intro d; rfl
  | cons v vs ih =>
    intro d
    cases hd : v.discriminant with
    | none =>
      simp [scanGo, scanStep, hd, variantError, ih]
    | some e =>
      cases e with
      | lit l =>
        cases l with
        | int n =>
          by_cases hle : (n : Int) ≤ w.maxValue
          · simp [scanGo, scanStep, hd, base10Parse, hle, variantError, ih]
          · simp [scanGo, scanStep, hd, base10Parse, hle, variantError, ih]
        | other k =>
          simp [scanGo, scanStep, hd, variantError, ih]
      | nonLit =>
        simp [scanGo, scanStep, hd, variantError, ih]

/-- When the scan records no error, the resolved list keeps exactly the
input variants, in source order. -/
lemma scanGo_fst (w : WidthKind) (vs : List Variant) :
    ∀ d, (scanGo w d vs).2 = [] → ((scanGo w d vs).1).map Prod.fst = vs := by
  induction vs with
  | nil => intro d _; rfl
  | cons v vs ih =>
    intro d herr
    cases hd : v.discriminant with
    | none =>
      simp only [scanGo, scanStep, hd] at herr ⊢
      simp [ih d herr]
    | some e =>
      cases e with
      | lit l =>
        cases l with
        | int n =>
          by_cases hle : (n : Int) ≤ w.maxValue
          · simp only [scanGo, scanStep, hd, base10Parse, if_pos hle] at herr ⊢
            simp [ih _ herr]
          · simp [scanGo, scanStep, hd, base10Parse, if_neg hle] at herr
        | other k =>
          simp [scanGo, scanStep, hd] at herr
      | nonLit =>
        simp [scanGo, scanStep, hd] at herr

/-- The maximum representable value of any width is non-negative. -/
lemma maxValue_nonneg (w : WidthKind) : 0 ≤ w.maxValue := by
  unfold WidthKind.maxValue
  have h1 := pow_pos (by norm_num : (0 : Int) < 2) w.bits
  have h2 := pow_pos (by norm_num : (0 : Int) < 2) (w.bits - 1)
  split <;> omega

/-- Wraparound of the maximum: `increment` sends the width's maximum
value to `0` for unsigned widths and to the minimum negative value for
signed widths. -/
lemma maxValue_increment (w : WidthKind) (h : 0 < w.bits) :
    w.increment w.maxValue = w.wrapOfMax := by
  simp only [WidthKind.increment, WidthKind.maxValue, WidthKind.wrapOfMax,
    WidthKind.minValue]
  by_cases hs : w.signed = true
  · simp only [if_pos hs]
    have h1 : (2 : Int) ^ (w.bits - 1) - 1 + 1 - -(2 ^ (w.bits - 1))
        = 2 ^ w.bits := by
      have h2 : w.bits - 1 + 1 = w.bits := Nat.succ_pred_eq_of_pos h
      calc (2 : Int) ^ (w.bits - 1) - 1 + 1 - -(2 ^ (w.bits - 1))
          = 2 ^ (w.bits - 1) * 2 := by ring
        _ = 2 ^ (w.bits - 1 + 1) := (pow_succ 2 (w.bits - 1)).symm
        _ = 2 ^ w.bits := by rw [h2]
    rw [h1, Int.emod_self, zero_add]
  · simp only [if_neg hs, sub_zero]
    have h1 : (2 : Int) ^ w.bits - 1 + 1 = 2 ^ w.bits := by ring
    rw [h1, Int.emod_self, add_zero]

/-- Each of the twelve primitive representations has a positive bit
width whenever the platform pointer width is positive. -/
lemma widthKind_bits_pos (ptrBits : Nat) (h : 0 < ptrBits)
    (r : PrimitiveRepresentation) : 0 < (r.widthKind ptrBits).bits := by
  cases r <;> simp only [PrimitiveRepresentation.widthKind] <;>
    first | exact h | decide

/-- Scanning an explicit in-range maximum literal followed by an
implicit variant: the literal resolves to the maximum and the implicit
variant to the incremented (wrapped) running value. -/
lemma scan_max_then_implicit (w : WidthKind) :
    scanVariants w
      [⟨"A", .unit, some (.lit (.int w.maxValue.toNat))⟩, ⟨"B", .unit, none⟩]
      = .ok [(⟨"A", .unit, some (.lit (.int w.maxValue.toNat))⟩, w.maxValue),
             (⟨"B", .unit, none⟩, w.increment w.maxValue)] := by
  have ht : ((w.maxValue.toNat : Int)) = w.maxValue :=
    Int.toNat_of_nonneg (maxValue_nonneg w)
  simp [scanVariants, scanGo, scanStep, base10Parse, ht]

/-- Scanning a list whose head is an in-range integer literal does not
depend on the incoming running value: the head resolves to the literal
and the tail is scanned from the literal incremented. -/
lemma scanGo_cons_int (w : WidthKind) (v : Variant) (vs : List Variant)
    (n : Nat) (d : Int) (hd : v.discriminant = some (.lit (.int n)))
    (hle : (n : Int) ≤ w.maxValue) :
    scanGo w d (v :: vs)
      = ((v, (n : Int)) :: (scanGo w (w.increment n) vs).1,
         (scanGo w (w.increment n) vs).2) := by
  simp [scanGo, scanStep, hd, base10Parse, hle]

/-- The compiler rule on a list whose head is an integer literal does
not depend on the incoming running value either. -/
lemma rustcGo_cons_int (w : WidthKind) (v : Variant) (vs : List Variant)
    (n : Nat) (d : Int) (hd : v.discriminant = some (.lit (.int n))) :
    rustcGo w d (v :: vs) = (v, (n : Int)) :: rustcGo w (w.increment n) vs := by
  simp [rustcGo, hd]

/-- Dropping the head preserves the no-two-consecutive-implicits
property. -/
lemma noConsecutiveImplicitB_tail (v : Variant) (vs : List Variant)
    (h : noConsecutiveImplicitB (v :: vs) = true) :
    noConsecutiveImplicitB vs = true := by
  cases vs with
  | nil => rfl
  | cons b t =>
    simp only [noConsecutiveImplicitB, Bool.and_eq_true] at h
    exact h.2

/-- On variant lists whose explicit discriminants are in-range integer
literals and in which no two adjacent variants are both implicit, the
scan of `scan_variants` records no error and computes exactly the
compiler-assigned discriminants, from any starting running value. -/
lemma scan_agree (w : WidthKind) (vs : List Variant)
    (hok : variantsLitOk w vs = true)
    (hnc : noConsecutiveImplicitB vs = true) :
    ∀ d, scanGo w d vs = (rustcGo w d vs, []) := by
  induction vs with
  | nil => intro d; rfl
  | cons v vs ih =>
    intro d
    have hok' : litOk w v = true ∧ variantsLitOk w vs = true := by
      simpa [variantsLitOk, List.all_cons, Bool.and_eq_true] using hok
    have hnc' := noConsecutiveImplicitB_tail v vs hnc
    cases hd : v.discriminant with
    | some e =>
      cases e with
      | lit l =>
        cases l with
        | int n =>
          have hle : (n : Int) ≤ w.maxValue := by
            have := hok'.1
            simp only [litOk, hd, decide_eq_true_eq] at this
            exact this
          rw [scanGo_cons_int w v vs n d hd hle,
            rustcGo_cons_int w v vs n d hd,
            ih hok'.2 hnc' (w.increment n)]
        | other k =>
          have := hok'.1
          simp [litOk, hd] at this
      | nonLit =>
        have := hok'.1
        simp [litOk, hd] at this
    | none =>
      have hstep : scanGo w d (v :: vs)
          = ((v, d) :: (scanGo w d vs).1, (scanGo w d vs).2) := by
        simp [scanGo, scanStep, hd]
      have hrstep : rustcGo w d (v :: vs)
          = (v, d) :: rustcGo w (w.increment d) vs := by
        simp [rustcGo, hd]
      rw [hstep, hrstep]
      cases vs with
      | nil => simp [scanGo, rustcGo]
      | cons v' t =>
        have hv' : ¬ v'.discriminant = none := by
          intro hn
          simp [noConsecutiveImplicitB, hd, hn] at hnc
        cases hd' : v'.discriminant with
        | none => exact absurd hd' hv'
        | some e' =>
          have hokv' : litOk w v' = true := by
            have := hok'.2
            simp only [variantsLitOk, List.all_cons, Bool.and_eq_true] at this
            exact this.1
          cases e' with
          | lit l' =>
            cases l' with
            | int n' =>
              have hle' : (n' : Int) ≤ w.maxValue := by
                simp only [litOk, hd', decide_eq_true_eq] at hokv'
                exact hokv'
              have h1 := scanGo_cons_int w v' t n' d hd' hle'
              have h2 := scanGo_cons_int w v' t n' (w.increment d) hd' hle'
              have h3 := ih hok'.2 hnc' (w.increment d)
              rw [h1, ← h2, h3]
            | other k' =>
              simp [litOk, hd'] at hokv'
          | nonLit =>
            simp [litOk, hd'] at hokv'

/-- `scan_variants` in closed form: succeed with the resolved pairs iff
the collected error list is empty, else fail with it. -/
lemma scanVariants_eq (w : WidthKind) (vs : List Variant) :
    scanVariants w vs
      = if (scanGo w 0 vs).2.isEmpty then Except.ok (scanGo w 0 vs).1
        else Except.error (scanGo w 0 vs).2 := rfl

/-- **C4.** The Discriminant Scan accumulates validation errors: the
collected error list is exactly the per-variant verdicts in source
order (so scanning continues past each invalid variant and every
offending position is reported in one pass), the scan fails overall
iff that list is non-empty, only on full success does it return the
resolved sequence, and a declaration with two out-of-range literals
(`A = 256`, `B = 300` at width `u8`) yields two distinct errors. -/
theorem scan_error_accumulation (w : WidthKind) (vs : List Variant) :
    (scanGo w 0 vs).2 = vs.filterMap (variantError w) ∧
    ((∃ es, scanVariants w vs = .error es) ↔ vs.filterMap (variantError w) ≠ []) ∧
    (∀ l, scanVariants w vs = .ok l →
      vs.filterMap (variantError w) = [] ∧ l = (scanGo w 0 vs).1) ∧
    (scanGo ⟨8, false⟩ 0
        [⟨"A", .unit, some (.lit (.int 256))⟩,
         ⟨"B", .unit, some (.lit (.int 300))⟩]).2
      = [.outOfRange "A" 256, .outOfRange "B" 300] := by
  have he := scanGo_errors w vs 0
  refine ⟨he, ?_, ?_, by decide⟩
  · rw [scanVariants_eq, ← he]
    by_cases hE : (scanGo w 0 vs).2.isEmpty
    · simp [hE, List.isEmpty_iff.mp hE]
    · simp only [if_neg hE]
      constructor
      · intro _
        exact fun hnil => hE (List.isEmpty_iff.mpr hnil)
      · intro _
        exact ⟨(scanGo w 0 vs).2, rfl⟩
  · intro l hl
    rw [scanVariants_eq] at hl
    by_cases hE : (scanGo w 0 vs).2.isEmpty
    · rw [if_pos hE] at hl
      have hnil := List.isEmpty_iff.mp hE
      exact ⟨he ▸ hnil, by injection hl with h'; exact h'.symm⟩
    · rw [if_neg hE] at hl
      exact absurd hl (by simp)

/-- Witness for C4 at the example enum `enum E { A, B = 2, C }` with
width `u8`: the success case returns the scanned list. -/
theorem scan_error_accumulation_witness :
    exampleE.filterMap (variantError ⟨8, false⟩) = [] ∧
    [(eA, (0 : Int)), (eB, 2), (eC, 3)] = (scanGo ⟨8, false⟩ 0 exampleE).1 :=
  (scan_error_accumulation ⟨8, false⟩ exampleE).2.2.1
    [(eA, 0), (eB, 2), (eC, 3)] (by decide)

/-- **C10.** Whenever the Discriminant Scan succeeds, the returned
sequence pairs exactly the input variants, one entry per variant, in
source order: mapping each returned entry to its variant gives back
the input list. -/
theorem scan_preserves_variant_list (w : WidthKind) (vs : List Variant)
    (l : List (Variant × Int)) (h : scanVariants w vs = .ok l) :
    l.map Prod.fst = vs := by
  rw [scanVariants_eq] at h
  by_cases hE : (scanGo w 0 vs).2.isEmpty
  · rw [if_pos hE] at h
    injection h with h'
    rw [← h']
    exact scanGo_fst w vs 0 (List.isEmpty_iff.mp hE)
  · rw [if_neg hE] at h
    exact absurd h (by simp)

/-- Witness for C10 at the example enum. -/
theorem scan_preserves_variant_list_witness :
    ([(eA, (0 : Int)), (eB, 2), (eC, 3)]).map Prod.fst = exampleE :=
  scan_preserves_variant_list ⟨8, false⟩ exampleE
    [(eA, 0), (eB, 2), (eC, 3)] (by decide)

/-- **C1.** Evaluation of `scan_variants` at the failing input
`#[repr(u8)] enum { A, B }` (no explicit discriminants): the scan
resolves *both* variants to `0`, because the closure never advances
the running value in the implicit branch (`map_or(Ok(*d), ...)`), and
in particular does not produce the sequential values `0, 1` the claim
(and the compiler rule) require. -/
theorem scan_implicit_keeps_running_value :
    scanVariants ⟨8, false⟩ [⟨"A", .unit, none⟩, ⟨"B", .unit, none⟩]
      = .ok [(⟨"A", .unit, none⟩, 0), (⟨"B", .unit, none⟩, 0)] ∧
    scanVariants ⟨8, false⟩ [⟨"A", .unit, none⟩, ⟨"B", .unit, none⟩]
      ≠ .ok [(⟨"A", .unit, none⟩, 0), (⟨"B", .unit, none⟩, 1)] := by
  constructor
  · decide
  · decide

/-- **C2, counterexample.** For `#[repr(u8)] enum { A, B }` (both
discriminants implicit) the conversion emitted by the `Into` derive
(the cast `value as u8`, i.e. the compiler-assigned discriminants
`A ↦ 0, B ↦ 1`) does not agree with the Discriminant Scan, which
resolves `A ↦ 0, B ↦ 0`. -/
theorem into_cast_vs_scan_counterexample :
    ¬ (scanVariants ⟨8, false⟩ [⟨"A", .unit, none⟩, ⟨"B", .unit, none⟩]
        = .ok (rustcDiscriminants ⟨8, false⟩
            [⟨"A", .unit, none⟩, ⟨"B", .unit, none⟩])) := by
  decide

/-- **C2, amended.** The `Into` derive resolves the width and emits the
cast `value as repr` without running the Discriminant Scan; the cast's
compiler-assigned values agree with the Scan's resolved values for
every enum whose explicit discriminants are in-range integer literals
and in which no two adjacent variants both lack an explicit
discriminant. -/
theorem scan_agrees_with_emitted_cast (w : WidthKind) (vs : List Variant)
    (h1 : variantsLitOk w vs = true)
    (h2 : noConsecutiveImplicitB vs = true) :
    scanVariants w vs = .ok (rustcDiscriminants w vs) := by
  have h := scan_agree w vs h1 h2 0
  rw [scanVariants_eq, rustcDiscriminants, h]
  simp

/-- Witness for the amended C2 at the example enum
`enum E { A, B = 2, C }` with width `u8`. -/
theorem scan_agrees_with_emitted_cast_witness :
    scanVariants ⟨8, false⟩ exampleE
      = .ok (rustcDiscriminants ⟨8, false⟩ exampleE) :=
  scan_agrees_with_emitted_cast ⟨8, false⟩ exampleE (by decide) (by decide)

/-- **C5.** For `#[repr(u8)] enum E { A, B = 2, C }`: the Scan resolves
`A ↦ 0, B ↦ 2, C ↦ 3`; the emitted to-integer conversion (the cast,
whose values are the compiler-assigned discriminants) yields `0, 2, 3`;
the `TryFrom` derive emits match arms sending `0, 2, 3` back to
`A, B, C`; and the emitted conversion applied to `1` fails with the
invalid-value error carrying the enum name `"E"`, whose rendered
message names `E`. -/
theorem example_enum_conversions :
    scanVariants ⟨8, false⟩ exampleE = .ok [(eA, 0), (eB, 2), (eC, 3)] ∧
    rustcDiscriminants ⟨8, false⟩ exampleE = [(eA, 0), (eB, 2), (eC, 3)] ∧
    tryFromDerive reprU8 64 exampleE = .ok (.u8, [(eA, 0), (eB, 2), (eC, 3)]) ∧
    tryFromFun "E" [(eA, 0), (eB, 2), (eC, 3)] 0 = .ok eA ∧
    tryFromFun "E" [(eA, 0), (eB, 2), (eC, 3)] 2 = .ok eB ∧
    tryFromFun "E" [(eA, 0), (eB, 2), (eC, 3)] 3 = .ok eC ∧
    tryFromFun "E" [(eA, 0), (eB, 2), (eC, 3)] 1 = .error ⟨"E"⟩ ∧
    TryFromError.message ⟨"E"⟩
      = "Tried to convert an invalid value into a E" := by
  refine ⟨by decide, by decide, by decide, by decide, by decide, by decide,
    by decide, rfl⟩

/-- **C6.** For every one of the twelve widths (at any positive pointer
width), the increment operation wraps the width's maximum to
wraparound-of-max — `0` for unsigned widths, the minimum negative
value for signed widths — and a variant explicitly set to the maximum
followed by an implicit variant makes the Scan resolve the implicit
one to that wraparound value. -/
theorem increment_wraps_at_max (ptrBits : Nat) (h : 0 < ptrBits)
    (r : PrimitiveRepresentation) :
    (r.widthKind ptrBits).increment (r.widthKind ptrBits).maxValue
      = (r.widthKind ptrBits).wrapOfMax ∧
    scanVariants (r.widthKind ptrBits)
      [⟨"A", .unit, some (.lit (.int (r.widthKind ptrBits).maxValue.toNat))⟩,
       ⟨"B", .unit, none⟩]
      = .ok [(⟨"A", .unit,
              some (.lit (.int (r.widthKind ptrBits).maxValue.toNat))⟩,
              (r.widthKind ptrBits).maxValue),
             (⟨"B", .unit, none⟩, (r.widthKind ptrBits).wrapOfMax)] := by
  have hinc := maxValue_increment _ (widthKind_bits_pos ptrBits h r)
  refine ⟨hinc, ?_⟩
  rw [scan_max_then_implicit (r.widthKind ptrBits), hinc]

/-- Witness for C6 at pointer width `64` and representation `i8`:
`127` increments to `-128`. -/
theorem increment_wraps_at_max_witness :
    (PrimitiveRepresentation.i8.widthKind 64).increment
        (PrimitiveRepresentation.i8.widthKind 64).maxValue
      = (PrimitiveRepresentation.i8.widthKind 64).wrapOfMax ∧
    scanVariants (PrimitiveRepresentation.i8.widthKind 64)
      [⟨"A", .unit, some (.lit (.int
          (PrimitiveRepresentation.i8.widthKind 64).maxValue.toNat))⟩,
       ⟨"B", .unit, none⟩]
      = .ok [(⟨"A", .unit, some (.lit (.int
              (PrimitiveRepresentation.i8.widthKind 64).maxValue.toNat))⟩,
              (PrimitiveRepresentation.i8.widthKind 64).maxValue),
             (⟨"B", .unit, none⟩,
              (PrimitiveRepresentation.i8.widthKind 64).wrapOfMax)] :=
  increment_wraps_at_max 64 (by decide) .i8

/-- **C7.** Any enum containing a data-carrying variant makes both the
`Into` derive and the `TryFrom` derive fail with the
not-all-variants-unit error (their input shape is `enum_unit`), while
the `Discriminants` derive (shape `enum_any`) accepts the crate's
data-carrying documentation example — with a tuple variant and a
struct variant — and emits its constants. -/
theorem unit_shape_requirement (attrs : List Attribute) (vs : List Variant)
    (h : ∃ v ∈ vs, ¬ v.fields = .unit) :
    intoDerive attrs vs = .error (.darlingMsg "Not all variants are unit") ∧
    tryFromDerive attrs 64 vs
      = .error (.darlingMsg "Not all variants are unit") ∧
    discriminantsDerive reprU8 64 dataEnum
      = .ok (.u8, [("A_D", 0), ("B_D", 2), ("C_D", 3)]) := by
  have hne : allUnit vs = false := by
    rcases h with ⟨v, hv, hf⟩
    cases hall : allUnit vs with
    | false => rfl
    | true =>
      have hall' : ∀ x ∈ vs, x.fields = Fields.unit := by
        simpa [allUnit, List.all_eq_true] using hall
      exact absurd (hall' v hv) hf
  refine ⟨?_, ?_, by decide⟩
  · simp [intoDerive, hne]
  · simp [tryFromDerive, hne]

/-- Witness for C7 at the data-carrying documentation example. -/
theorem unit_shape_requirement_witness :
    intoDerive reprU8 dataEnum
      = .error (.darlingMsg "Not all variants are unit") ∧
    tryFromDerive reprU8 64 dataEnum
      = .error (.darlingMsg "Not all variants are unit") ∧
    discriminantsDerive reprU8 64 dataEnum
      = .ok (.u8, [("A_D", 0), ("B_D", 2), ("C_D", 3)]) :=
  unit_shape_requirement reprU8 dataEnum
    ⟨⟨"B", .unnamed 1, some (.lit (.int 2))⟩, by decide, by decide⟩

/-- **C8, counterexample.** A variant whose explicit discriminant is a
literal of a non-integer kind (e.g. a string literal) is not a plain
integer literal, yet the error the scan records for it is darling's
unexpected-literal-type error, not the "Discriminant must be an
integer literal" one. -/
theorem nonint_literal_error_kind :
    (scanGo ⟨8, false⟩ 0 [⟨"A", .unit, some (.lit (.other "string"))⟩]).2
      = [.unexpectedLitType "A" "string"] ∧
    ScanError.notIntegerLiteral "A"
      ∉ (scanGo ⟨8, false⟩ 0 [⟨"A", .unit, some (.lit (.other "string"))⟩]).2 := by
  constructor
  · decide
  · decide

/-- **C8, amended.** Every variant whose explicit discriminant
expression is not a literal at all (e.g. a computed expression) makes
the scan record the "Discriminant must be an integer literal"
validation error for that variant, and the scan then fails overall;
an explicit literal of a non-integer kind instead records darling's
unexpected-literal-type error. -/
theorem nonliteral_expression_error (w : WidthKind) (vs : List Variant)
    (v : Variant) (hv : v ∈ vs) (hd : v.discriminant = some .nonLit) :
    ScanError.notIntegerLiteral v.name ∈ (scanGo w 0 vs).2 ∧
    ∀ l, scanVariants w vs ≠ .ok l := by
  have hmem : ScanError.notIntegerLiteral v.name ∈ (scanGo w 0 vs).2 := by
    rw [scanGo_errors w vs 0]
    exact List.mem_filterMap.mpr ⟨v, hv, by simp [variantError, hd]⟩
  refine ⟨hmem, ?_⟩
  intro l hl
  rw [scanVariants_eq] at hl
  by_cases hE : (scanGo w 0 vs).2.isEmpty
  · rw [List.isEmpty_iff.mp hE] at hmem
    exact absurd hmem (List.not_mem_nil _)
  · rw [if_neg hE] at hl
    exact absurd hl (by simp)

/-- Witness for the amended C8 at a one-variant enum whose
discriminant is a computed (non-literal) expression. -/
theorem nonliteral_expression_error_witness :
    ScanError.notIntegerLiteral "A"
      ∈ (scanGo ⟨8, false⟩ 0 [⟨"A", .unit, some .nonLit⟩]).2 ∧
    ∀ l, scanVariants ⟨8, false⟩ [⟨"A", .unit, some .nonLit⟩] ≠ .ok l :=
  nonliteral_expression_error ⟨8, false⟩ [⟨"A", .unit, some .nonLit⟩]
    ⟨"A", .unit, some .nonLit⟩ (by decide) rfl

/-- **C9.** An enum with zero variants: the Scan succeeds with the
empty sequence, the `Discriminants` derive succeeds emitting no
constants, the `TryFrom` derive succeeds emitting no match arms, and
the emitted from-integer conversion fails for every input integer. -/
theorem empty_enum_generation (w : WidthKind) (n : Int) :
    scanVariants w [] = .ok [] ∧
    discriminantsDerive reprU8 64 [] = .ok (.u8, []) ∧
    tryFromDerive reprU8 64 [] = .ok (.u8, []) ∧
    tryFromFun "E" [] n = .error ⟨"E"⟩ :=
  ⟨rfl, by decide, by decide, rfl⟩

/-- Witness for C9 at width `u8` and input `7`. -/
theorem empty_enum_generation_witness :
    scanVariants ⟨8, false⟩ [] = .ok [] ∧
    discriminantsDerive reprU8 64 [] = .ok (.u8, []) ∧
    tryFromDerive reprU8 64 [] = .ok (.u8, []) ∧
    tryFromFun "E" [] 7 = .error ⟨"E"⟩ :=
  empty_enum_generation ⟨8, false⟩ 7

/-- **C3, counterexample.** With `#[repr(C)]` — a declaration present
whose spelling matches none of the twelve widths — the resolver fails
with the *missing-declaration* message, not the "Invalid primitive
representation" (unrecognized width) one, because `from_list` discards
the per-item parse errors; and with the ambiguous `#[repr(u8, u16)]`
it does not fail at all: it selects the first recognized width. -/
theorem width_resolver_counterexample :
    fromAttributes [⟨"repr", [.path "C"]⟩]
      = .error "#[repr(inttype)] must be specified" ∧
    fromAttributes [⟨"repr", [.path "C"]⟩]
      ≠ .error "Invalid primitive representation" ∧
    fromAttributes [⟨"repr", [.path "u8", .path "u16"]⟩] = .ok .u8 := by
  refine ⟨by decide, by decide, by decide⟩

/-- **C3, amended.** The Width-Selection Resolver takes the first
`repr` attribute; if none is present, *or* the attribute contains no
item spelling one of the twelve recognized widths, it fails with the
missing-declaration error `#[repr(inttype)] must be specified`; when
some item is recognized it returns the first recognized width (several
recognized widths do not make it fail). -/
theorem width_selection_behavior (attrs : List Attribute) :
    (attrs.find? (fun x => x.path == "repr") = none →
      fromAttributes attrs = .error "#[repr(inttype)] must be specified") ∧
    (∀ a, attrs.find? (fun x => x.path == "repr") = some a →
      ((∀ i ∈ a.nested, resultOk (fromNestedMeta i) = none) →
        fromAttributes attrs = .error "#[repr(inttype)] must be specified") ∧
      (∀ r, fromAttributes attrs = .ok r →
        ∃ i ∈ a.nested, resultOk (fromNestedMeta i) = some r)) := by
  constructor
  · intro hnone
    simp [fromAttributes, hnone]
  · intro a ha
    constructor
    · intro hall
      have hfs : a.nested.findSome? (fun i => resultOk (fromNestedMeta i))
          = none := List.findSome?_eq_none_iff.mpr hall
      simp [fromAttributes, ha, fromList, hfs]
    · intro r hr
      have hr' : fromList a.nested = .ok r := by
        simpa [fromAttributes, ha] using hr
      unfold fromList at hr'
      cases hfs : a.nested.findSome? (fun i => resultOk (fromNestedMeta i)) with
      | some r' =>
        rw [hfs] at hr'
        injection hr' with h'
        subst h'
        exact List.exists_of_findSome?_eq_some hfs
      | none =>
        rw [hfs] at hr'
        exact absurd hr' (by simp)

/-- Witness for the amended C3: `#[repr(C)]` resolves to the
missing-declaration error. -/
theorem width_selection_behavior_witness :
    fromAttributes [⟨"repr", [.path "C"]⟩]
      = .error "#[repr(inttype)] must be specified" :=
  ((width_selection_behavior [⟨"repr", [.path "C"]⟩]).2
      ⟨"repr", [.path "C"]⟩ (by decide)).1 (by decide)

end EnumDiscrim
